import Mathlib

set_option maxRecDepth 4000

/-!
Shallow embedding of the integer truncation / sign-extension helpers of the
MIR interpreter (`src/librustc_mir/interpret/mod.rs`), together with proofs
about them.

`u128` values are modelled as natural numbers below `2 ^ 128` and `i128`
values as integers in `[-2 ^ 127, 2 ^ 127)`; every machine operation carries
its wrap-around (`% 2 ^ 128`) or its overflow check explicitly.  A Rust
shift by an amount not below the bit width and a subtraction that would go
below zero are arithmetic-overflow defects (they abort under the debug
assertions the compiler is built with), so the corresponding primitives
return `none` and the functions surface that as a panic outcome, kept apart
from the `EvalResult` error channel.
-/

namespace Interpret

/-- Failure of the external `layout_of` query (spec §6): the queried type is
not fully concrete, or its size overflows.  The numeric payload stands for
the offending type. -/
inductive LayoutError where
  | Unknown : Nat → LayoutError
  | SizeOverflow : Nat → LayoutError
deriving DecidableEq

/-- The evaluation-error kinds relevant here: `Layout` wraps a failed layout
query, as in `EvalErrorKind::Layout(layout)`.  The interpreter has further
kinds; two representatives keep the kind distinction meaningful. -/
inductive EvalErrorKind where
  | Layout : LayoutError → EvalErrorKind
  | Unreachable : EvalErrorKind
  | Overflow : EvalErrorKind
deriving DecidableEq

/-- What a successful layout query returns about a type, as far as
`sign_extend` and `truncate` read it: `layout.size.bits()` and
`layout.abi.is_signed()`. -/
structure TyLayout where
  size_bits : Nat
  abi_is_signed : Bool
deriving DecidableEq

/-- The typing context handed to both functions; only its `layout_of` query
(under the empty `ParamEnv`) is consulted. -/
structure TyCtxt (Ty : Type) where
  layout_of : Ty → Except LayoutError TyLayout

/-- Outcome of running one of the Rust functions: a normal `EvalResult`
value (`ok` / `err`), or a panic — a failed `assert!` or a failed
arithmetic-overflow check. -/
inductive Outcome (α : Type) where
  | ok : α → Outcome α
  | err : EvalErrorKind → Outcome α
  | panic : Outcome α
deriving DecidableEq

/-- `Outcome.isOk o` holds exactly when `o` is a normal `Ok` result. -/
def Outcome.isOk {α : Type} : Outcome α → Bool
  | .ok _ => true
  | _ => false

/-- Checked subtraction (`128 - size` in the source): machine-integer
subtraction overflows when the subtrahend is larger. -/
def checked_sub (a b : Nat) : Option Nat :=
  if b ≤ a then some (a - b) else none

/-- `value << shift` on `u128`: bits shifted past position 127 are
discarded (`% 2 ^ 128`); a shift amount of 128 or more is an overflow. -/
def u128_shl (v s : Nat) : Option Nat :=
  if s < 128 then some ((v <<< s) % 2 ^ 128) else none

/-- `value >> shift` on `u128`: logical right shift, filling with zeroes. -/
def u128_shr (v s : Nat) : Option Nat :=
  if s < 128 then some (v >>> s) else none

/-- `v as i128` on a `u128` value: two's-complement reinterpretation. -/
def u128_as_i128 (v : Nat) : Int :=
  if v < 2 ^ 127 then (v : Int) else (v : Int) - 2 ^ 128

/-- `x as u128` on an `i128` value: two's-complement reinterpretation
(`%` on `Int` is the Euclidean remainder, so the result is the unique
representative below `2 ^ 128`). -/
def i128_as_u128 (x : Int) : Nat :=
  (x % 2 ^ 128).toNat

/-- `x >> shift` on `i128`: arithmetic right shift, i.e. floor division by
`2 ^ shift` (fills with copies of the sign bit on the left). -/
def i128_shr (x : Int) (s : Nat) : Option Int :=
  if s < 128 then some (Int.fdiv x (2 ^ s)) else none

/-- `pub fn sign_extend(tcx, value: u128, ty) -> EvalResult<u128>`:
query the layout (propagating a failure as `EvalErrorKind::Layout`),
assert that the layout's ABI is signed, then shift the value to the left by
`128 - size` and back to the right arithmetically, so the high bits are
filled with copies of the sign bit. -/
def sign_extend {Ty : Type} (tcx : TyCtxt Ty) (value : Nat) (ty : Ty) :
    Outcome Nat :=
  match tcx.layout_of ty with
  | .error layout => .err (.Layout layout)
  | .ok layout =>
    let size := layout.size_bits
    if layout.abi_is_signed = true then
      match checked_sub 128 size with
      | none => .panic
      | some shift =>
        match u128_shl value shift with
        | none => .panic
        | some shifted =>
          match i128_shr (u128_as_i128 shifted) shift with
          | none => .panic
          | some r => .ok (i128_as_u128 r)
    else
      .panic

/-- `pub fn truncate(tcx, value: u128, ty) -> EvalResult<u128>`:
query the layout (propagating a failure as `EvalErrorKind::Layout`), then
shift the value to the left by `128 - size` to drop the leftover high bits
and back to the right logically, filling with zeroes. -/
def truncate {Ty : Type} (tcx : TyCtxt Ty) (value : Nat) (ty : Ty) :
    Outcome Nat :=
  match tcx.layout_of ty with
  | .error layout => .err (.Layout layout)
  | .ok layout =>
    let size := layout.size_bits
    match checked_sub 128 size with
    | none => .panic
    | some shift =>
      match u128_shl value shift with
      | none => .panic
      | some shifted =>
        match u128_shr shifted shift with
        | none => .panic
        | some r => .ok r

/-- Mathematical description of sign extension from width `w` to width 128:
keep the low `w` bits and fill the high `128 - w` bits with copies of bit
`w - 1` (the sign bit). -/
def sign_extend_spec (v w : Nat) : Nat :=
  if Nat.testBit v (w - 1) then v % 2 ^ w + (2 ^ 128 - 2 ^ w) else v % 2 ^ w

/-- A small concrete universe of types, for evaluating the functions. -/
inductive SampleTy where
  | i8
  | u8
  | i32
  | i128
  | u128
  | generic
deriving DecidableEq

/-- The layouts of the sample types; `generic` stands for a type with an
open generic parameter, on which the layout query fails. -/
def sampleLayout : SampleTy → Except LayoutError TyLayout
  | .i8 => .ok ⟨8, true⟩
  | .u8 => .ok ⟨8, false⟩
  | .i32 => .ok ⟨32, true⟩
  | .i128 => .ok ⟨128, true⟩
  | .u128 => .ok ⟨128, false⟩
  | .generic => .error (.Unknown 0)

/-- A concrete typing context over the sample types. -/
def sampleTcx : TyCtxt SampleTy := ⟨sampleLayout⟩

/-- A second context, over a different type of type names, whose single
type has the same layout as `SampleTy.i8` under `sampleTcx`. -/
def unitI8Tcx : TyCtxt Unit := ⟨fun _ => .ok ⟨8, true⟩⟩

/-- A degenerate context whose layout query answers with a zero-width
signed layout. -/
def degenerateTcx : TyCtxt Unit := ⟨fun _ => .ok ⟨0, true⟩⟩

example : truncate sampleTcx 511 SampleTy.i8 = .ok 255 := by decide
example : truncate sampleTcx 255 SampleTy.i8 = .ok 255 := by decide
example : sign_extend sampleTcx 255 SampleTy.i8 = .ok (2 ^ 128 - 1) := by decide
example : sign_extend sampleTcx 127 SampleTy.i8 = .ok 127 := by decide
example : sign_extend sampleTcx 255 SampleTy.u8 = .panic := by decide
example : truncate sampleTcx 3 SampleTy.generic =
    .err (.Layout (.Unknown 0)) := by decide
example : truncate degenerateTcx 3 () = .panic := by decide
example : sign_extend degenerateTcx 3 () = .panic := by decide
example : sign_extend_spec 255 8 = 2 ^ 128 - 1 := by decide

/-! Arithmetic core of the two functions. -/

lemma two_pow_split (w : Nat) (h2 : w ≤ 128) :
    (2 : Nat) ^ 128 = 2 ^ w * 2 ^ (128 - w) := by
  rw [← pow_add]
  congr 1
  omega

/-- Shifting left by `128 - w` and wrapping keeps exactly the low `w` bits,
moved to the top of the word. -/
lemma shl_mod_eq (v w : Nat) (h2 : w ≤ 128) :
    (v <<< (128 - w)) % 2 ^ 128 = v % 2 ^ w * 2 ^ (128 - w) := by
  rw [Nat.shiftLeft_eq, two_pow_split w h2, Nat.mul_mod_mul_right]

/-- The two shifts of `truncate` compute reduction modulo `2 ^ w`. -/
lemma trunc_core (v w : Nat) (h2 : w ≤ 128) :
    ((v <<< (128 - w)) % 2 ^ 128) >>> (128 - w) = v % 2 ^ w := by
  rw [shl_mod_eq v w h2, Nat.shiftRight_eq_div_pow,
    Nat.mul_div_cancel _ (pow_pos (by norm_num) _)]

/-- Bit `w - 1` of `v` — the sign bit at width `w` — is set exactly when the
low `w` bits of `v` are at least `2 ^ (w - 1)`. -/
lemma testBit_sign (v w : Nat) (h1 : 1 ≤ w) :
    Nat.testBit v (w - 1) = decide (2 ^ (w - 1) ≤ v % 2 ^ w) := by
  have hw : w - 1 < w := by omega
  have hmod : Nat.testBit (v % 2 ^ w) (w - 1) = Nat.testBit v (w - 1) := by
    rw [Nat.testBit_mod_two_pow]
    simp [hw]
  have hpos : 0 < (2 : Nat) ^ (w - 1) := pow_pos (by norm_num) _
  rw [← hmod, Nat.testBit_to_div_mod]
  have hlt : v % 2 ^ w < 2 ^ w := Nat.mod_lt _ (pow_pos (by norm_num) _)
  have hww : (2 : Nat) ^ w = 2 * 2 ^ (w - 1) := by
    rw [← pow_succ']
    congr 1
    omega
  have hdiv2 : v % 2 ^ w / 2 ^ (w - 1) < 2 := Nat.div_lt_of_lt_mul (by omega)
  rw [Nat.mod_eq_of_lt hdiv2, decide_eq_decide]
  rw [← Nat.one_le_div_iff hpos]
  omega

/-- The shift pair of `sign_extend` computes `sign_extend_spec`. -/
lemma sext_core (v w : Nat) (h1 : 1 ≤ w) (h2 : w ≤ 128) :
    i128_as_u128
        (Int.fdiv (u128_as_i128 ((v <<< (128 - w)) % 2 ^ 128)) (2 ^ (128 - w))) =
      sign_extend_spec v w := by
  rw [shl_mod_eq v w h2]
  set u := v % 2 ^ w with hu_def
  have hu : u < 2 ^ w := Nat.mod_lt _ (pow_pos (by norm_num) _)
  have hsb : Nat.testBit v (w - 1) = decide (2 ^ (w - 1) ≤ u) := testBit_sign v w h1
  have h127 : (2 : Nat) ^ 127 = 2 ^ (w - 1) * 2 ^ (128 - w) := by
    rw [← pow_add]
    congr 1
    omega
  have hpow : (2 : Nat) ^ w ≤ 2 ^ 128 := Nat.pow_le_pow_right (by norm_num) h2
  have hZsplit : (2 : Int) ^ 128 = 2 ^ w * 2 ^ (128 - w) := by
    rw [← pow_add]
    congr 1
    omega
  have hZs : (0 : Int) < 2 ^ (128 - w) := pow_pos (by norm_num) _
  by_cases hcase : 2 ^ (w - 1) ≤ u
  · -- the sign bit is set: the arithmetic shift fills with ones
    have hge : 2 ^ 127 ≤ u * 2 ^ (128 - w) := by
      rw [h127]
      exact mul_le_mul_right' hcase _
    have hlt : u * 2 ^ (128 - w) < 2 ^ 128 := by
      rw [two_pow_split w h2]
      exact mul_lt_mul_of_pos_right hu (pow_pos (by norm_num) _)
    rw [u128_as_i128, if_neg (by omega)]
    have hcast : ((u * 2 ^ (128 - w) : Nat) : Int) = (u : Int) * 2 ^ (128 - w) := by
      push_cast
      ring
    have hmul : ((u * 2 ^ (128 - w) : Nat) : Int) - 2 ^ 128 =
        ((u : Int) - 2 ^ w) * 2 ^ (128 - w) := by
      rw [hcast, hZsplit]
      ring
    rw [hmul, Int.mul_fdiv_cancel _ hZs.ne']
    have hZu : (u : Int) < 2 ^ w := by
      rw [show ((2 : Int) ^ w) = ((2 ^ w : Nat) : Int) by norm_cast]
      exact_mod_cast hu
    have hZpow : (2 : Int) ^ w ≤ 2 ^ 128 := by
      rw [show ((2 : Int) ^ w) = ((2 ^ w : Nat) : Int) by norm_cast,
        show ((2 : Int) ^ 128) = ((2 ^ 128 : Nat) : Int) by norm_cast]
      exact_mod_cast hpow
    have h0 : (u : Int) - 2 ^ w = ((u : Int) - 2 ^ w + 2 ^ 128) + 2 ^ 128 * (-1) := by
      ring
    have hmod : ((u : Int) - 2 ^ w) % 2 ^ 128 = (u : Int) - 2 ^ w + 2 ^ 128 := by
      conv_lhs => rw [h0]
      rw [Int.add_mul_emod_self_left]
      exact Int.emod_eq_of_lt (by have := Int.natCast_nonneg u; omega) (by omega)
    rw [i128_as_u128, hmod, sign_extend_spec, hsb, if_pos (by simpa using hcase), ← hu_def]
    have hcw : ((2 ^ w : Nat) : Int) = 2 ^ w := by norm_cast
    have hc128 : ((2 ^ 128 : Nat) : Int) = 2 ^ 128 := by norm_cast
    rw [← hcw, ← hc128]
    omega
  · -- the sign bit is clear: the arithmetic shift fills with zeroes
    have hlt : u * 2 ^ (128 - w) < 2 ^ 127 := by
      rw [h127]
      exact mul_lt_mul_of_pos_right (by omega) (pow_pos (by norm_num) _)
    rw [u128_as_i128, if_pos hlt]
    rw [show ((u * 2 ^ (128 - w) : Nat) : Int) = (u : Int) * 2 ^ (128 - w) by push_cast; ring,
      Int.mul_fdiv_cancel _ hZs.ne']
    have hZu : (u : Int) < 2 ^ 128 := by
      rw [show ((2 : Int) ^ 128) = ((2 ^ 128 : Nat) : Int) by norm_cast]
      exact_mod_cast lt_of_lt_of_le hu hpow
    rw [i128_as_u128, Int.emod_eq_of_lt (Int.natCast_nonneg u) hZu, Int.toNat_natCast,
      sign_extend_spec, hsb, if_neg (by simpa using hcase), ← hu_def]

/-! Evaluation lemmas for the two functions. -/

/-- `truncate` on a failed layout query propagates the failure. -/
lemma truncate_err {Ty : Type} (tcx : TyCtxt Ty) (ty : Ty) (e : LayoutError)
    (hl : tcx.layout_of ty = .error e) (v : Nat) :
    truncate tcx v ty = .err (.Layout e) := by
  unfold truncate
  rw [hl]

/-- `sign_extend` on a failed layout query propagates the failure. -/
lemma sign_extend_err {Ty : Type} (tcx : TyCtxt Ty) (ty : Ty) (e : LayoutError)
    (hl : tcx.layout_of ty = .error e) (v : Nat) :
    sign_extend tcx v ty = .err (.Layout e) := by
  unfold sign_extend
  rw [hl]

/-- `truncate` on a concrete layout of width `1 ≤ w ≤ 128` reduces the value
modulo `2 ^ w`. -/
lemma truncate_eq {Ty : Type} (tcx : TyCtxt Ty) (ty : Ty) (l : TyLayout)
    (hl : tcx.layout_of ty = .ok l) (h1 : 1 ≤ l.size_bits) (h2 : l.size_bits ≤ 128)
    (v : Nat) : truncate tcx v ty = .ok (v % 2 ^ l.size_bits) := by
  unfold truncate
  rw [hl]
  simp only [checked_sub, u128_shl, u128_shr, if_pos (show l.size_bits ≤ 128 from h2),
    if_pos (show 128 - l.size_bits < 128 by omega)]
  rw [trunc_core v _ h2]

/-- `sign_extend` on a concrete signed layout of width `1 ≤ w ≤ 128` computes
`sign_extend_spec`. -/
lemma sign_extend_eq {Ty : Type} (tcx : TyCtxt Ty) (ty : Ty) (l : TyLayout)
    (hl : tcx.layout_of ty = .ok l) (hs : l.abi_is_signed = true)
    (h1 : 1 ≤ l.size_bits) (h2 : l.size_bits ≤ 128) (v : Nat) :
    sign_extend tcx v ty = .ok (sign_extend_spec v l.size_bits) := by
  unfold sign_extend
  rw [hl]
  simp only [hs, if_true, checked_sub, u128_shl, i128_shr,
    if_pos (show l.size_bits ≤ 128 from h2),
    if_pos (show 128 - l.size_bits < 128 by omega)]
  rw [sext_core v _ h1 h2]

/-- `truncate` on a concrete layout wider than 128 bits overflows the
subtraction `128 - size`. -/
lemma truncate_wide {Ty : Type} (tcx : TyCtxt Ty) (ty : Ty) (l : TyLayout)
    (hl : tcx.layout_of ty = .ok l) (hw : 128 < l.size_bits) (v : Nat) :
    truncate tcx v ty = .panic := by
  unfold truncate
  rw [hl]
  simp [checked_sub, show ¬ l.size_bits ≤ 128 by omega]

/-- `sign_extend` on a concrete signed layout wider than 128 bits overflows
the subtraction `128 - size`. -/
lemma sign_extend_wide {Ty : Type} (tcx : TyCtxt Ty) (ty : Ty) (l : TyLayout)
    (hl : tcx.layout_of ty = .ok l) (hs : l.abi_is_signed = true)
    (hw : 128 < l.size_bits) (v : Nat) :
    sign_extend tcx v ty = .panic := by
  unfold sign_extend
  rw [hl]
  simp [checked_sub, hs, show ¬ l.size_bits ≤ 128 by omega]

/-- `sign_extend` on a concrete layout whose ABI is not signed fails the
assertion. -/
lemma sign_extend_not_signed {Ty : Type} (tcx : TyCtxt Ty) (ty : Ty) (l : TyLayout)
    (hl : tcx.layout_of ty = .ok l) (hs : l.abi_is_signed = false) (v : Nat) :
    sign_extend tcx v ty = .panic := by
  unfold sign_extend
  rw [hl]
  simp [hs]

/-- `truncate` on a concrete layout of width zero overflows the shift. -/
lemma truncate_zero_width {Ty : Type} (tcx : TyCtxt Ty) (ty : Ty) (l : TyLayout)
    (hl : tcx.layout_of ty = .ok l) (hw : l.size_bits = 0) (v : Nat) :
    truncate tcx v ty = .panic := by
  unfold truncate
  rw [hl]
  simp [checked_sub, u128_shl, hw]

/-- `sign_extend` on a concrete signed layout of width zero overflows the
shift. -/
lemma sign_extend_zero_width {Ty : Type} (tcx : TyCtxt Ty) (ty : Ty) (l : TyLayout)
    (hl : tcx.layout_of ty = .ok l) (hs : l.abi_is_signed = true)
    (hw : l.size_bits = 0) (v : Nat) :
    sign_extend tcx v ty = .panic := by
  unfold sign_extend
  rw [hl]
  simp [checked_sub, u128_shl, hs, hw]

/-- On a concrete layout neither function can produce an `err` outcome. -/
lemma ne_err_of_layout_ok {Ty : Type} (tcx : TyCtxt Ty) (ty : Ty) (l : TyLayout)
    (hl : tcx.layout_of ty = .ok l) (v : Nat) (k : EvalErrorKind) :
    truncate tcx v ty ≠ .err k ∧ sign_extend tcx v ty ≠ .err k := by
  constructor
  · rcases Nat.lt_or_ge 128 l.size_bits with hw | hw
    · rw [truncate_wide tcx ty l hl hw v]
      simp
    · rcases Nat.eq_zero_or_pos l.size_bits with h0 | h0
      · rw [truncate_zero_width tcx ty l hl h0 v]
        simp
      · rw [truncate_eq tcx ty l hl h0 hw v]
        simp
  · by_cases hs : l.abi_is_signed = true
    · rcases Nat.lt_or_ge 128 l.size_bits with hw | hw
      · rw [sign_extend_wide tcx ty l hl hs hw v]
        simp
      · rcases Nat.eq_zero_or_pos l.size_bits with h0 | h0
        · rw [sign_extend_zero_width tcx ty l hl hs h0 v]
          simp
        · rw [sign_extend_eq tcx ty l hl hs h0 hw v]
          simp
    · rw [sign_extend_not_signed tcx ty l hl (by simpa using hs) v]
      simp

/-! Bit-level description of `sign_extend_spec`. -/

/-- The sign-extended value fits in 128 bits. -/
lemma sign_extend_spec_lt (v w : Nat) (h2 : w ≤ 128) : sign_extend_spec v w < 2 ^ 128 := by
  have hpow : (2 : Nat) ^ w ≤ 2 ^ 128 := Nat.pow_le_pow_right (by norm_num) h2
  have hu : v % 2 ^ w < 2 ^ w := Nat.mod_lt _ (pow_pos (by norm_num) _)
  rw [sign_extend_spec]
  split <;> omega

/-- When the sign bit is set, the sign-filled result decomposes as the block
of ones on top of the low bits. -/
lemma sign_extend_spec_decomp (v w : Nat) (h2 : w ≤ 128)
    (htb : Nat.testBit v (w - 1) = true) :
    sign_extend_spec v w = 2 ^ w * (2 ^ (128 - w) - 1) + v % 2 ^ w := by
  have hid : 2 ^ w * (2 ^ (128 - w) - 1) = 2 ^ 128 - 2 ^ w := by
    rw [Nat.mul_sub_one, ← two_pow_split w h2]
  rw [sign_extend_spec, if_pos htb, hid]
  omega

/-- Sign extension keeps every low bit. -/
lemma sign_extend_spec_testBit_low (v w i : Nat) (h2 : w ≤ 128) (hi : i < w) :
    Nat.testBit (sign_extend_spec v w) i = Nat.testBit v i := by
  have hu : v % 2 ^ w < 2 ^ w := Nat.mod_lt _ (pow_pos (by norm_num) _)
  by_cases htb : Nat.testBit v (w - 1) = true
  · rw [sign_extend_spec_decomp v w h2 htb, Nat.testBit_mul_pow_two_add _ hu i,
      if_pos hi, Nat.testBit_mod_two_pow]
    simp [hi]
  · rw [sign_extend_spec, if_neg htb, Nat.testBit_mod_two_pow]
    simp [hi]

/-- Sign extension fills every high bit (up to 128) with the sign bit. -/
lemma sign_extend_spec_testBit_high (v w i : Nat) (h1 : 1 ≤ w) (h2 : w ≤ 128)
    (hwi : w ≤ i) (hi : i < 128) :
    Nat.testBit (sign_extend_spec v w) i = Nat.testBit v (w - 1) := by
  have hu : v % 2 ^ w < 2 ^ w := Nat.mod_lt _ (pow_pos (by norm_num) _)
  by_cases htb : Nat.testBit v (w - 1) = true
  · rw [sign_extend_spec_decomp v w h2 htb, Nat.testBit_mul_pow_two_add _ hu i,
      if_neg (by omega), Nat.testBit_two_pow_sub_one, htb]
    simp only [decide_eq_true_eq]
    omega
  · have hfalse : Nat.testBit v (w - 1) = false := by simpa using htb
    rw [sign_extend_spec, if_neg htb, hfalse, Nat.testBit_mod_two_pow]
    simp [show ¬ i < w by omega]

/-- A value below `2 ^ 128` whose high bits are copies of its sign bit is its
own sign extension. -/
lemma sign_extend_spec_of_high_bits (v w : Nat) (h1 : 1 ≤ w) (h2 : w ≤ 128)
    (hv : v < 2 ^ 128)
    (hbits : ∀ i, w ≤ i → i < 128 → Nat.testBit v i = Nat.testBit v (w - 1)) :
    sign_extend_spec v w = v := by
  apply Nat.eq_of_testBit_eq
  intro i
  by_cases hi : i < w
  · exact sign_extend_spec_testBit_low v w i h2 hi
  · by_cases hi2 : i < 128
    · rw [sign_extend_spec_testBit_high v w i h1 h2 (by omega) hi2,
        hbits i (by omega) hi2]
    · have hp : (2 : Nat) ^ 128 ≤ 2 ^ i := Nat.pow_le_pow_right (by norm_num) (by omega)
      rw [Nat.testBit_lt_two_pow (lt_of_lt_of_le (sign_extend_spec_lt v w h2) hp),
        Nat.testBit_lt_two_pow (lt_of_lt_of_le hv hp)]

/-- A value below `2 ^ 128` whose high bits are all zero is unchanged by
reduction modulo `2 ^ w`. -/
lemma mod_eq_self_of_high_bits_zero (v w : Nat) (hv : v < 2 ^ 128)
    (hbits : ∀ i, w ≤ i → i < 128 → Nat.testBit v i = false) :
    v % 2 ^ w = v := by
  apply Nat.eq_of_testBit_eq
  intro i
  rw [Nat.testBit_mod_two_pow]
  by_cases hi : i < w
  · simp [hi]
  · by_cases hi2 : i < 128
    · simp [hi, hbits i (by omega) hi2]
    · have hp : (2 : Nat) ^ 128 ≤ 2 ^ i := Nat.pow_le_pow_right (by norm_num) (by omega)
      simp [hi, Nat.testBit_lt_two_pow (lt_of_lt_of_le hv hp)]

/-- `sign_extend_spec` only depends on the low `w` bits of its input. -/
lemma sign_extend_spec_congr (v1 v2 w : Nat) (h1 : 1 ≤ w)
    (h : v1 % 2 ^ w = v2 % 2 ^ w) : sign_extend_spec v1 w = sign_extend_spec v2 w := by
  rw [sign_extend_spec, sign_extend_spec, testBit_sign v1 w h1, testBit_sign v2 w h1, h]

/-- The low `w` bits of the sign-extended value are the low `w` bits of the
input. -/
lemma sign_extend_spec_mod (v w : Nat) (h2 : w ≤ 128) :
    sign_extend_spec v w % 2 ^ w = v % 2 ^ w := by
  by_cases htb : Nat.testBit v (w - 1) = true
  · rw [sign_extend_spec_decomp v w h2 htb, Nat.mul_add_mod,
      Nat.mod_mod_of_dvd v (dvd_refl _)]
  · rw [sign_extend_spec, if_neg htb, Nat.mod_mod_of_dvd v (dvd_refl _)]

/-- A successful `truncate` pins the layout width to `1..128` and the result
to the input reduced modulo `2 ^ w`. -/
lemma truncate_ok_bounds {Ty : Type} (tcx : TyCtxt Ty) (ty : Ty) (l : TyLayout)
    (hl : tcx.layout_of ty = .ok l) (v r : Nat) (hok : truncate tcx v ty = .ok r) :
    1 ≤ l.size_bits ∧ l.size_bits ≤ 128 ∧ r = v % 2 ^ l.size_bits := by
  rcases Nat.lt_or_ge 128 l.size_bits with hgt | hle
  · rw [truncate_wide tcx ty l hl hgt v] at hok
    exact absurd hok (by simp)
  · rcases Nat.eq_zero_or_pos l.size_bits with h0 | hpos
    · rw [truncate_zero_width tcx ty l hl h0 v] at hok
      exact absurd hok (by simp)
    · rw [truncate_eq tcx ty l hl hpos hle v] at hok
      injection hok with h
      exact ⟨hpos, hle, h.symm⟩

/-! The claims. -/

/-- Claim C1 counterexample: at the signed 8-bit sample type, truncating 255
(whose sign bit, bit 7, is set) returns 255, whose high 120 bits are zero —
bit 8 of the result is clear — so `truncate` at a signed type does not fill
the high result bits with the sign bit. -/
theorem claim1_counterexample :
    truncate sampleTcx 255 SampleTy.i8 = .ok 255 ∧
      Nat.testBit 255 7 = true ∧ Nat.testBit 255 8 = false ∧
      (255 : Nat) ≠ 2 ^ 128 - 1 :=
  ⟨by decide, by decide, by decide, by decide⟩

/-- Claim C1 (amended): for every type whose layout is concrete with bit
width `w` (`1 ≤ w ≤ 128`), the truncation/sign-extension of a 128-bit value
to width `w` is computed by shifting left by `128 - w` and shifting back
right by `128 - w`; the bits shifted back in are copies of the sign bit for
`sign_extend` and zero for `truncate` regardless of the type's signedness —
in particular, truncating a value at a signed type fills the high `128 - w`
result bits with zero. -/
theorem claim1_shift_fill {Ty : Type} (tcx : TyCtxt Ty) (ty : Ty)
    (l : TyLayout) (hl : tcx.layout_of ty = .ok l)
    (h1 : 1 ≤ l.size_bits) (h2 : l.size_bits ≤ 128) (v : Nat) (hv : v < 2 ^ 128) :
    (truncate tcx v ty = .ok (v % 2 ^ l.size_bits) ∧
      (∀ i, i < l.size_bits →
        Nat.testBit (v % 2 ^ l.size_bits) i = Nat.testBit v i) ∧
      (∀ i, l.size_bits ≤ i → Nat.testBit (v % 2 ^ l.size_bits) i = false)) ∧
    (l.abi_is_signed = true →
      sign_extend tcx v ty = .ok (sign_extend_spec v l.size_bits) ∧
      (∀ i, l.size_bits ≤ i → i < 128 →
        Nat.testBit (sign_extend_spec v l.size_bits) i =
          Nat.testBit v (l.size_bits - 1))) := by
  constructor
  · refine ⟨truncate_eq tcx ty l hl h1 h2 v, ?_, ?_⟩
    · intro i hi
      rw [Nat.testBit_mod_two_pow]
      simp [hi]
    · intro i hwi
      rw [Nat.testBit_mod_two_pow]
      simp [show ¬ i < l.size_bits by omega]
  · intro hs
    refine ⟨sign_extend_eq tcx ty l hl hs h1 h2 v, ?_⟩
    intro i hwi hi
    exact sign_extend_spec_testBit_high v _ i h1 h2 hwi hi

/-- Claim C1 witness at the signed 8-bit sample type and value 200. -/
theorem claim1_witness :
    truncate sampleTcx 200 SampleTy.i8 = .ok (200 % 2 ^ 8) :=
  (claim1_shift_fill sampleTcx SampleTy.i8 ⟨8, true⟩ rfl (by decide) (by decide)
    200 (by decide)).1.1

/-- Claim C2 counterexample: the all-ones value has every high bit equal to
its bit 7, yet `truncate` at the signed 8-bit sample type does not return it
unchanged — it zero-fills and returns 255. -/
theorem claim2_counterexample :
    truncate sampleTcx (2 ^ 128 - 1) SampleTy.i8 = .ok 255 ∧
      Nat.testBit (2 ^ 128 - 1) 7 = true ∧
      Nat.testBit (2 ^ 128 - 1) 100 = true ∧
      (2 ^ 128 - 1 : Nat) ≠ 255 :=
  ⟨by decide, by decide, by decide, by decide⟩

/-- Claim C2 (amended): for every concrete layout of width `1 ≤ w ≤ 128` and
both signedness variants, a value whose high `128 - w` bits are zero is
returned unchanged by `truncate`; for the signed variant, a value whose high
`128 - w` bits are copies of its bit `w - 1` is returned unchanged by
`sign_extend`; and sign-extending then truncating back at width `w` returns
the original low-`w`-bit value. -/
theorem claim2_idempotence {Ty : Type} (tcx : TyCtxt Ty) (ty : Ty)
    (l : TyLayout) (hl : tcx.layout_of ty = .ok l)
    (h1 : 1 ≤ l.size_bits) (h2 : l.size_bits ≤ 128) (v : Nat) (hv : v < 2 ^ 128) :
    ((∀ i, l.size_bits ≤ i → i < 128 → Nat.testBit v i = false) →
      truncate tcx v ty = .ok v) ∧
    (l.abi_is_signed = true →
      (∀ i, l.size_bits ≤ i → i < 128 →
        Nat.testBit v i = Nat.testBit v (l.size_bits - 1)) →
      sign_extend tcx v ty = .ok v) ∧
    (∀ r, sign_extend tcx v ty = .ok r →
      truncate tcx r ty = .ok (v % 2 ^ l.size_bits)) := by
  refine ⟨?_, ?_, ?_⟩
  · intro hbits
    rw [truncate_eq tcx ty l hl h1 h2 v, mod_eq_self_of_high_bits_zero v _ hv hbits]
  · intro hs hbits
    rw [sign_extend_eq tcx ty l hl hs h1 h2 v,
      sign_extend_spec_of_high_bits v _ h1 h2 hv hbits]
  · intro r hr
    by_cases hs : l.abi_is_signed = true
    · rw [sign_extend_eq tcx ty l hl hs h1 h2 v] at hr
      injection hr with h
      rw [← h, truncate_eq tcx ty l hl h1 h2 _, sign_extend_spec_mod v _ h2]
    · have hs' : l.abi_is_signed = false := by simpa using hs
      rw [sign_extend_not_signed tcx ty l hl hs' v] at hr
      exact absurd hr (by simp)

/-- Claim C2 witness: extend-then-truncate at the signed 8-bit sample type
and value 100. -/
theorem claim2_witness :
    truncate sampleTcx 100 SampleTy.i8 = .ok (100 % 2 ^ 8) :=
  (claim2_idempotence sampleTcx SampleTy.i8 ⟨8, true⟩ rfl (by decide) (by decide)
    100 (by decide)).2.2 100 (by decide)

/-- Claim C3: for every signed type whose layout is concrete with bit width
`w` (`1 ≤ w ≤ 128`) and every `u128` value, `sign_extend` returns `Ok` of a
value whose low `w` bits equal the low `w` bits of the input and whose high
`128 - w` bits are all equal to bit `w - 1` of the input (the sign bit). -/
theorem claim3_sign_extend_bits {Ty : Type} (tcx : TyCtxt Ty) (ty : Ty)
    (l : TyLayout) (hl : tcx.layout_of ty = .ok l) (hs : l.abi_is_signed = true)
    (h1 : 1 ≤ l.size_bits) (h2 : l.size_bits ≤ 128) (v : Nat) (hv : v < 2 ^ 128) :
    sign_extend tcx v ty = .ok (sign_extend_spec v l.size_bits) ∧
      (∀ i, i < l.size_bits →
        Nat.testBit (sign_extend_spec v l.size_bits) i = Nat.testBit v i) ∧
      (∀ i, l.size_bits ≤ i → i < 128 →
        Nat.testBit (sign_extend_spec v l.size_bits) i =
          Nat.testBit v (l.size_bits - 1)) := by
  refine ⟨sign_extend_eq tcx ty l hl hs h1 h2 v, ?_, ?_⟩
  · intro i hi
    exact sign_extend_spec_testBit_low v _ i h2 hi
  · intro i hwi hi
    exact sign_extend_spec_testBit_high v _ i h1 h2 hwi hi

/-- Claim C3 witness at the signed 8-bit sample type and value 200. -/
theorem claim3_witness :
    sign_extend sampleTcx 200 SampleTy.i8 = .ok (sign_extend_spec 200 8) :=
  (claim3_sign_extend_bits sampleTcx SampleTy.i8 ⟨8, true⟩ rfl rfl (by decide)
    (by decide) 200 (by decide)).1

/-- Claim C4: `sign_extend` and `truncate` return an error exactly when the
layout query for the given type fails; a failure is wrapped as a
`Layout`-kind evaluation error and propagated, and on a successful query
neither function returns an error. -/
theorem claim4_error_iff_layout_failure {Ty : Type} (tcx : TyCtxt Ty) (ty : Ty)
    (v : Nat) :
    (∀ e, tcx.layout_of ty = .error e →
      sign_extend tcx v ty = .err (.Layout e) ∧
        truncate tcx v ty = .err (.Layout e)) ∧
    (∀ l, tcx.layout_of ty = .ok l →
      ∀ k, sign_extend tcx v ty ≠ .err k ∧ truncate tcx v ty ≠ .err k) := by
  constructor
  · intro e he
    exact ⟨sign_extend_err tcx ty e he v, truncate_err tcx ty e he v⟩
  · intro l hlk k
    exact ⟨(ne_err_of_layout_ok tcx ty l hlk v k).2, (ne_err_of_layout_ok tcx ty l hlk v k).1⟩

/-- Claim C4 witness at the sample type with an open generic parameter. -/
theorem claim4_witness :
    sign_extend sampleTcx 7 SampleTy.generic = .err (.Layout (.Unknown 0)) ∧
      truncate sampleTcx 7 SampleTy.generic = .err (.Layout (.Unknown 0)) :=
  (claim4_error_iff_layout_failure sampleTcx SampleTy.generic 7).1 (.Unknown 0) rfl

/-- Claim C5: both functions are deterministic — the result is a function of
the input value and the queried layout alone, so two runs (e.g. by the
constant-evaluation and dynamic-analysis callers) whose layout queries agree
on the given type return identical results. -/
theorem claim5_deterministic {Ty1 Ty2 : Type} (tcx1 : TyCtxt Ty1)
    (tcx2 : TyCtxt Ty2) (ty1 : Ty1) (ty2 : Ty2) (v : Nat)
    (h : tcx1.layout_of ty1 = tcx2.layout_of ty2) :
    sign_extend tcx1 v ty1 = sign_extend tcx2 v ty2 ∧
      truncate tcx1 v ty1 = truncate tcx2 v ty2 := by
  unfold sign_extend truncate
  rw [h]
  exact ⟨rfl, rfl⟩

/-- Claim C5 witness: two distinct contexts agreeing on an 8-bit signed
layout give identical results at value 200. -/
theorem claim5_witness :
    sign_extend sampleTcx 200 SampleTy.i8 = sign_extend unitI8Tcx 200 () ∧
      truncate sampleTcx 200 SampleTy.i8 = truncate unitI8Tcx 200 () :=
  claim5_deterministic sampleTcx unitI8Tcx SampleTy.i8 () 200 rfl

/-- Claim C6: both functions discard the high bits of their input — on a
concrete layout, inputs agreeing on their low `w` bits give equal results;
`sign_extend` after `truncate` equals `sign_extend` alone, and `truncate` is
idempotent. -/
theorem claim6_high_bits_discarded {Ty : Type} (tcx : TyCtxt Ty) (ty : Ty)
    (l : TyLayout) (hl : tcx.layout_of ty = .ok l) :
    (∀ v1 v2, v1 % 2 ^ l.size_bits = v2 % 2 ^ l.size_bits →
      truncate tcx v1 ty = truncate tcx v2 ty ∧
        sign_extend tcx v1 ty = sign_extend tcx v2 ty) ∧
    (∀ v r, truncate tcx v ty = .ok r →
      sign_extend tcx r ty = sign_extend tcx v ty ∧
        truncate tcx r ty = .ok r) := by
  have hmain : ∀ v1 v2, v1 % 2 ^ l.size_bits = v2 % 2 ^ l.size_bits →
      truncate tcx v1 ty = truncate tcx v2 ty ∧
        sign_extend tcx v1 ty = sign_extend tcx v2 ty := by
    intro v1 v2 h
    rcases Nat.lt_or_ge 128 l.size_bits with hgt | hle
    · constructor
      · rw [truncate_wide tcx ty l hl hgt v1, truncate_wide tcx ty l hl hgt v2]
      · by_cases hs : l.abi_is_signed = true
        · rw [sign_extend_wide tcx ty l hl hs hgt v1,
            sign_extend_wide tcx ty l hl hs hgt v2]
        · have hs' : l.abi_is_signed = false := by simpa using hs
          rw [sign_extend_not_signed tcx ty l hl hs' v1,
            sign_extend_not_signed tcx ty l hl hs' v2]
    · rcases Nat.eq_zero_or_pos l.size_bits with h0 | hpos
      · constructor
        · rw [truncate_zero_width tcx ty l hl h0 v1,
            truncate_zero_width tcx ty l hl h0 v2]
        · by_cases hs : l.abi_is_signed = true
          · rw [sign_extend_zero_width tcx ty l hl hs h0 v1,
              sign_extend_zero_width tcx ty l hl hs h0 v2]
          · have hs' : l.abi_is_signed = false := by simpa using hs
            rw [sign_extend_not_signed tcx ty l hl hs' v1,
              sign_extend_not_signed tcx ty l hl hs' v2]
      · constructor
        · rw [truncate_eq tcx ty l hl hpos hle v1,
            truncate_eq tcx ty l hl hpos hle v2, h]
        · by_cases hs : l.abi_is_signed = true
          · rw [sign_extend_eq tcx ty l hl hs hpos hle v1,
              sign_extend_eq tcx ty l hl hs hpos hle v2,
              sign_extend_spec_congr v1 v2 _ hpos h]
          · have hs' : l.abi_is_signed = false := by simpa using hs
            rw [sign_extend_not_signed tcx ty l hl hs' v1,
              sign_extend_not_signed tcx ty l hl hs' v2]
  refine ⟨hmain, ?_⟩
  intro v r hok
  obtain ⟨hpos, hle, hr⟩ := truncate_ok_bounds tcx ty l hl v r hok
  have hagree : r % 2 ^ l.size_bits = v % 2 ^ l.size_bits := by
    rw [hr, Nat.mod_mod_of_dvd v (dvd_refl _)]
  constructor
  · exact (hmain r v hagree).2
  · rw [truncate_eq tcx ty l hl hpos hle r, hagree, ← hr]

/-- Claim C6 witness: 456 and 200 agree on their low 8 bits, so truncation
at the 8-bit signed sample type gives equal results. -/
theorem claim6_witness :
    truncate sampleTcx 456 SampleTy.i8 = truncate sampleTcx 200 SampleTy.i8 :=
  ((claim6_high_bits_discarded sampleTcx SampleTy.i8 ⟨8, true⟩ rfl).1 456 200
    (by decide)).1

/-- Claim C7: for every type whose layout is concrete with bit width `w`
(`1 ≤ w ≤ 128`) and every `u128` value `v`, `truncate` returns
`Ok (v mod 2 ^ w)` — the discarded high bits are refilled with zero
regardless of the type's signedness — and at `w = 128` it is the identity. -/
theorem claim7_truncate_mod {Ty : Type} (tcx : TyCtxt Ty) (ty : Ty)
    (l : TyLayout) (hl : tcx.layout_of ty = .ok l)
    (h1 : 1 ≤ l.size_bits) (h2 : l.size_bits ≤ 128) (v : Nat) (hv : v < 2 ^ 128) :
    truncate tcx v ty = .ok (v % 2 ^ l.size_bits) ∧
      (l.size_bits = 128 → truncate tcx v ty = .ok v) := by
  refine ⟨truncate_eq tcx ty l hl h1 h2 v, fun h128 => ?_⟩
  rw [truncate_eq tcx ty l hl h1 h2 v, h128, Nat.mod_eq_of_lt hv]

/-- Claim C7 witness: at the 128-bit sample type, `truncate` is the
identity on 12345. -/
theorem claim7_witness :
    truncate sampleTcx 12345 SampleTy.u128 = .ok 12345 :=
  (claim7_truncate_mod sampleTcx SampleTy.u128 ⟨128, false⟩ rfl (by decide)
    (by decide) 12345 (by decide)).2 rfl

/-- Claim C8 counterexample: under a layout query answering a zero-width
signed layout, the `is_signed` assertion passes, but `sign_extend` aborts on
the out-of-range shift instead of returning `Ok`. -/
theorem claim8_counterexample :
    degenerateTcx.layout_of () = .ok ⟨0, true⟩ ∧
      (⟨0, true⟩ : TyLayout).abi_is_signed = true ∧
      sign_extend degenerateTcx 5 () = .panic ∧
      (sign_extend degenerateTcx 5 ()).isOk = false :=
  ⟨rfl, by decide, by decide, by decide⟩

/-- Claim C8 (amended): `sign_extend` requires a signed layout as a
precondition enforced by an assertion, not by its error result — on a
concrete layout whose ABI is not signed it panics rather than returning an
`Err`; and when the layout query succeeds with a signed ABI of width
`1 ≤ w ≤ 128`, the assertion does not fire and the function returns `Ok`. -/
theorem claim8_assertion {Ty : Type} (tcx : TyCtxt Ty) (ty : Ty)
    (l : TyLayout) (hl : tcx.layout_of ty = .ok l) (v : Nat) :
    (l.abi_is_signed = false →
      sign_extend tcx v ty = .panic ∧ ∀ k, sign_extend tcx v ty ≠ .err k) ∧
    (l.abi_is_signed = true → 1 ≤ l.size_bits → l.size_bits ≤ 128 →
      sign_extend tcx v ty = .ok (sign_extend_spec v l.size_bits)) := by
  constructor
  · intro hs
    refine ⟨sign_extend_not_signed tcx ty l hl hs v, fun k => ?_⟩
    rw [sign_extend_not_signed tcx ty l hl hs v]
    simp
  · intro hs h1 h2
    exact sign_extend_eq tcx ty l hl hs h1 h2 v

/-- Claim C8 witness: at the unsigned 8-bit sample type `sign_extend`
panics, and at the signed 8-bit sample type it returns `Ok`. -/
theorem claim8_witness :
    sign_extend sampleTcx 200 SampleTy.u8 = .panic :=
  ((claim8_assertion sampleTcx SampleTy.u8 ⟨8, false⟩ rfl 200).1 rfl).1

/-- Claim C9: both functions compute the shift amount as `128` minus the
layout's bit width; under `1 ≤ w ≤ 128` the shift amount is below 128 and in
range, and the functions run to a normal result (`truncate` always,
`sign_extend` on signed layouts); for a zero-width layout the shift amount
is 128, out of range for a 128-bit shift, and both functions abort there
instead of producing a result. -/
theorem claim9_shift_range {Ty : Type} (tcx : TyCtxt Ty) (ty : Ty)
    (l : TyLayout) (hl : tcx.layout_of ty = .ok l) (v : Nat) :
    (1 ≤ l.size_bits → l.size_bits ≤ 128 →
      128 - l.size_bits < 128 ∧
      truncate tcx v ty = .ok (v % 2 ^ l.size_bits) ∧
      (l.abi_is_signed = true →
        sign_extend tcx v ty = .ok (sign_extend_spec v l.size_bits))) ∧
    (l.size_bits = 0 →
      128 - l.size_bits = 128 ∧
      u128_shl v (128 - l.size_bits) = none ∧
      truncate tcx v ty = .panic ∧
      (l.abi_is_signed = true → sign_extend tcx v ty = .panic)) := by
  constructor
  · intro h1 h2
    exact ⟨by omega, truncate_eq tcx ty l hl h1 h2 v,
      fun hs => sign_extend_eq tcx ty l hl hs h1 h2 v⟩
  · intro h0
    refine ⟨by omega, ?_, truncate_zero_width tcx ty l hl h0 v,
      fun hs => sign_extend_zero_width tcx ty l hl hs h0 v⟩
    rw [h0]
    simp [u128_shl]

/-- Claim C9 witness: at the zero-width signed layout, `truncate` aborts on
the out-of-range shift. -/
theorem claim9_witness :
    truncate degenerateTcx 5 () = .panic :=
  ((claim9_shift_range degenerateTcx () ⟨0, true⟩ rfl 5).2 rfl).2.2.1

end Interpret
